import Mathlib

/-!
# PolyCrawler — verification of the multi-layer name-resolution pipeline

Shallow embedding of the core of the PolyCrawler repository:

* `netlify/functions/lib/utils.js` — name normalisation, similarity scoring,
  Levenshtein distance, dedup, retry with exponential backoff, batch sizing;
* `netlify/functions/lib/misses-registry.ts` — miss registry (cooldown reads,
  add/merge, manual classification);
* the birthdate registry module (`qualifiesForRegistry`, `addToRegistry`);
* `netlify/functions/lib/rate-limiter.js` — token-bucket rate limiter;
* `netlify/functions/crawl.js` — `lookupPersonOptimized` orchestrator and
  `fetchFromWikipediaWithRetry`.

JavaScript strings are modelled as lists of UTF-16 code units (`JStr`,
`List Nat`); timestamps as integer milliseconds; JS number arithmetic on the
small ratios appearing here as exact rational arithmetic (`Rat`), with
`Math.round x = ⌊x + 1/2⌋`.  Durable stores are total maps
`JStr → Option entry`; storage never fails in the model (the JS code swallows
storage errors and degrades, which no claim here depends on).
-/

namespace PolyCrawler

/-! ## JS string model -/

/-- A JavaScript string: a list of UTF-16 code units. -/
abbrev JStr := List Nat

/-- Embed a Lean string literal as a `JStr` (code points; all characters used
in this development are in the Basic Multilingual Plane, where code point and
UTF-16 unit coincide). -/
def jstr (s : String) : JStr := s.data.map Char.toNat

/-- The JS `\s` character class (also the set removed by `String.trim`):
whitespace and line terminators. -/
def jsIsWs (c : Nat) : Bool :=
  c = 9 ∨ c = 10 ∨ c = 11 ∨ c = 12 ∨ c = 13 ∨ c = 32 ∨ c = 160 ∨
  c = 0x1680 ∨ (0x2000 ≤ c ∧ c ≤ 0x200a) ∨ c = 0x2028 ∨ c = 0x2029 ∨
  c = 0x202f ∨ c = 0x205f ∨ c = 0x3000 ∨ c = 0xfeff

/-- Embedding of `String.prototype.toLowerCase` on one code unit, for the Basic Latin
range (the default simple case mapping; it is the identity on every code unit
this pipeline's claims exercise outside `A`–`Z`). -/
def jsToLower (c : Nat) : Nat :=
  if 65 ≤ c ∧ c ≤ 90 then c + 32 else c

/-- Embedding of `String.prototype.toLowerCase`. -/
def lowerStr (s : JStr) : JStr := s.map jsToLower

/-- Embedding of `String.prototype.trim`: drop leading and trailing whitespace. -/
def trimStr (s : JStr) : JStr :=
  ((s.dropWhile jsIsWs).reverse.dropWhile jsIsWs).reverse

/-- Embedding of `.replace(/['']/g, "'")` — unify curly apostrophes (U+2018, U+2019) to
the ASCII apostrophe (U+0027); a per-character replacement. -/
def replQuotes (s : JStr) : JStr :=
  s.map (fun c => if c = 0x2018 ∨ c = 0x2019 then 39 else c)

/-- Embedding of `.replace(/\s+/g, ' ')`: each maximal run of whitespace becomes a single
space.  Structural two-character lookahead: a whitespace unit followed by more
whitespace is dropped, the last unit of a run becomes the single `' '`. -/
def collapseWs : JStr → JStr
  | [] => []
  | [c] => if jsIsWs c then [32] else [c]
  | c₁ :: c₂ :: rest =>
    if jsIsWs c₁ then
      if jsIsWs c₂ then collapseWs (c₂ :: rest)
      else 32 :: collapseWs (c₂ :: rest)
    else c₁ :: collapseWs (c₂ :: rest)

/-- Embedding of `normalizeName` (utils.js): lowercase, trim, unify apostrophes, collapse
whitespace — in exactly the source's order
`name.toLowerCase().trim().replace(/['']/g, "'").replace(/\s+/g, ' ')`. -/
def normalizeName (name : JStr) : JStr :=
  collapseWs (replQuotes (trimStr (lowerStr name)))

/-! ## Similarity scorer (utils.js) -/

/-- Embedding of `a.includes(b)` for JS strings: `b` occurs contiguously inside `a`
(the empty string is included in every string, as in JS). -/
def jsIncludes (a b : JStr) : Bool :=
  match a with
  | [] => b.isEmpty
  | _ :: t => b.isPrefixOf a || jsIncludes t b

/-- Embedding of `s.split(/\s+/)`: split at each maximal whitespace run.  As in JS, a
leading (resp. trailing) run contributes a leading (resp. trailing) empty
field, and splitting the empty string yields `[""]`. -/
def splitWs : JStr → List JStr
  | [] => [[]]
  | [c] => if jsIsWs c then [[], []] else [[c]]
  | c₁ :: c₂ :: rest =>
    if jsIsWs c₁ then
      if jsIsWs c₂ then splitWs (c₂ :: rest)
      else [] :: splitWs (c₂ :: rest)
    else
      match splitWs (c₂ :: rest) with
      | [] => [[c₁]]
      | w :: ws => (c₁ :: w) :: ws

/-- Embedding of `new Set(list)` enumerated in insertion order: keep first occurrences. -/
def jsSetList (l : List JStr) : List JStr :=
  l.foldl (fun acc x => if acc.contains x then acc else acc ++ [x]) []

/-- Embedding of `Math.round((num / den) * scale)` evaluated in exact rational arithmetic:
for `den > 0`, `⌊num·scale/den + 1/2⌋ = ⌊(2·scale·num + den) / (2·den)⌋`,
a natural-number division (`Math.round` ties go up, and every ratio in this
pipeline is non-negative).  For `den = 0` the result is `0` (such calls are
unreachable: each caller has already excluded the degenerate case). -/
def jsRoundScaled (scale num den : Nat) : Nat :=
  (2 * scale * num + den) / (2 * den)

/-- One inner row step of the Levenshtein dynamic program of
`levenshteinDistance` (utils.js): `ups` walks the previous row,
`diag`/`left` are `dp[i-1][j-1]` and `dp[i][j-1]`. -/
def levRowAux (c : Nat) : List Nat → List Nat → Nat → Nat → List Nat
  | [], _, _, _ => []
  | _ :: _, [], _, _ => []
  | y :: ys, up :: ups, diag, left =>
    let cell := if c = y then diag else 1 + min up (min left diag)
    cell :: levRowAux c ys ups up cell

/-- Embedding of `levenshteinDistance(s1, s2)` (utils.js): the row-by-row DP table;
`dp[0][j] = j`, `dp[i][0] = i`, and the usual three-way minimum. -/
def levenshteinDistance (s1 s2 : JStr) : Nat :=
  let row0 := List.range (s2.length + 1)
  let final :=
    (s1.foldl
      (fun (st : Nat × List Nat) c =>
        let i := st.1 + 1
        match st.2 with
        | [] => (i, [])
        | p0 :: ps => (i, i :: levRowAux c s2 ps p0 i))
      (0, row0)).2
  (final.getLast?).getD 0

/-- Embedding of `nameSimilarity(name1, name2)` (utils.js): normalise both names, then the
first matching tier wins — exact → 100, substring →
`Math.round((shorter.length / longer.length) * 90)`, word-overlap Jaccard →
`Math.round((|∩| / |∪|) * 80)`, short-string Levenshtein →
`Math.max(0, Math.round((1 - distance / maxLen) * 70))`, else 0.
In tier 4, `(1 - distance/maxLen) * 70 = 70·(maxLen - distance)/maxLen` and
`distance ≤ maxLen` always (a Levenshtein distance is at most the longer
length), so the truncated subtraction is exact and `Math.max(0, ·)` keeps its
(vacuous) clamping role. -/
def nameSimilarity (name1 name2 : JStr) : Nat :=
  let n1 := normalizeName name1
  let n2 := normalizeName name2
  if n1 = n2 then 100
  else if jsIncludes n1 n2 || jsIncludes n2 n1 then
    let shorter := if n1.length < n2.length then n1 else n2
    let longer := if n2.length ≤ n1.length then n1 else n2
    jsRoundScaled 90 shorter.length longer.length
  else
    let words1 := jsSetList (splitWs n1)
    let words2 := jsSetList (splitWs n2)
    let intersection := words1.filter (fun w => words2.contains w)
    let union := jsSetList (words1 ++ words2)
    if 0 < intersection.length then
      jsRoundScaled 80 intersection.length union.length
    else if n1.length < 20 ∧ n2.length < 20 then
      let distance := levenshteinDistance n1 n2
      let maxLen := max n1.length n2.length
      max 0 (jsRoundScaled 70 (maxLen - distance) maxLen)
    else 0

/-- The similarity algorithm as the specification words it (§4.2): on the
normalized forms, first matching tier wins — (1) exact match → 100;
(2) one string a substring of the other → `round((len shorter / len longer) · 90)`;
(3) non-empty intersection of the whitespace-split token sets →
`round((|intersection| / |union|) · 80)`; (4) both shorter than 20 characters
→ `round((1 - editDistance/maxLen) · 70)` floored at 0; (5) otherwise 0. -/
def nameSimilaritySpec (a b : JStr) : Nat :=
  let n1 := normalizeName a
  let n2 := normalizeName b
  if n1 = n2 then 100
  else if jsIncludes n1 n2 || jsIncludes n2 n1 then
    jsRoundScaled 90 (min n1.length n2.length) (max n1.length n2.length)
  else
    let tokens1 := jsSetList (splitWs n1)
    let tokens2 := jsSetList (splitWs n2)
    let inter := tokens1.filter (fun w => tokens2.contains w)
    let union := jsSetList (tokens1 ++ tokens2)
    if inter.length ≠ 0 then
      jsRoundScaled 80 inter.length union.length
    else if n1.length < 20 ∧ n2.length < 20 then
      max 0 (jsRoundScaled 70 (max n1.length n2.length - levenshteinDistance n1 n2)
               (max n1.length n2.length))
    else 0

/-- A pipeline `Person`; the market records attached to a person are never
inspected by the dedup logic, so their type is a parameter. -/
structure Person (μ : Type) where
  name : JStr
  nameKey : JStr
  markets : List μ
  deriving Repr, DecidableEq

/-- Embedding of `findSimilarPerson(name, peopleList, threshold)` (utils.js): linear scan,
first candidate with similarity ≥ threshold wins. -/
def findSimilarPerson {μ : Type} (name : JStr) (peopleList : List (Person μ))
    (threshold : Nat) : Option (Person μ × Nat) :=
  let normalized := normalizeName name
  match peopleList with
  | [] => none
  | person :: rest =>
    let similarity := nameSimilarity normalized person.nameKey
    if threshold ≤ similarity then some (person, similarity)
    else findSimilarPerson name rest threshold

/-- Merge step of `deduplicatePeople`: the JS code mutates the matched object
in place (`match.person.name = …`, `match.person.markets = […, …]`); here the
element at the matched index is replaced by the merged record. -/
def dedupMerge {μ : Type} (old incoming : Person μ) : Person μ :=
  let named :=
    if old.name.length < incoming.name.length then
      { old with name := incoming.name, nameKey := normalizeName incoming.name }
    else old
  { named with markets := old.markets ++ incoming.markets }

/-- Embedding of `deduplicatePeople(peopleList, threshold)` (utils.js): fold the list into
an accumulator via `findSimilarPerson`; on a match merge (longer display name
wins, market lists concatenate), otherwise append as a fresh entry. -/
def deduplicatePeople {μ : Type} (peopleList : List (Person μ))
    (threshold : Nat) : List (Person μ) :=
  peopleList.foldl
    (fun deduped person =>
      match deduped.findIdx? (fun p =>
          threshold ≤ nameSimilarity (normalizeName person.name) p.nameKey) with
      | some idx =>
        match deduped[idx]? with
        | some old => deduped.set idx (dedupMerge old person)
        | none => deduped
      | none =>
        deduped ++ [{ name := person.name,
                      nameKey := normalizeName person.name,
                      markets := person.markets }])
    []

/-- Embedding of `calculateBatchSize(names, cachedNames, base, max)` (utils.js).  The JS
cache ratio `cachedCount / names.length` is a float, compared with `>= 0.8`
and `>= 0.5`; on a non-empty list the comparison is the exact cross-multiplied
inequality below, and on an empty list the ratio is `NaN`, which makes both
guards false — encoded by the `names.length ≠ 0` conjunct. -/
def calculateBatchSize (names : List JStr) (cachedNames : List JStr)
    (baseBatchSize : Nat := 5) (maxBatchSize : Nat := 15) : Nat :=
  let cachedCount := (names.filter
    (fun n => cachedNames.contains (normalizeName n))).length
  if names.length ≠ 0 ∧ 8 * names.length ≤ 10 * cachedCount then maxBatchSize
  else if names.length ≠ 0 ∧ 5 * names.length ≤ 10 * cachedCount then
    min (baseBatchSize * 2) maxBatchSize
  else baseBatchSize

/-! ## Results and durable stores

Timestamps are integer milliseconds since the epoch (the JS code stores ISO
strings and compares their `Date` values; the comparisons are equivalent on
the millisecond timeline).  A durable store is a total map from key to
optional entry; `getStore(...).get/setJSON` become map lookup/update. -/

/-- A lookup result as produced anywhere in the pipeline (`WikipediaResult`
in types.ts, plus the dynamic fields the orchestrator attaches: `missReason`,
`entityType`, `seenCount` on the synthetic miss result, `cachedAt` on cache
round-trips, `matchedAs` on fuzzy celebrity hits).  `none` models a JS field
that is absent or `null`. -/
structure WikiResult where
  found : Bool
  birthDate : Option String := none
  birthDateRaw : Option String := none
  wikipediaUrl : Option String := none
  confidence : Option Int := none
  status : String
  source : String
  matchedAs : Option JStr := none
  missReason : Option String := none
  entityType : Option String := none
  seenCount : Option Nat := none
  cachedAt : Option Int := none
  deriving Repr, DecidableEq

/-- A durable key-value store keyed by normalised name. -/
def Store (α : Type) : Type := JStr → Option α

/-- Embedding of `store.setJSON(key, value)`. -/
def Store.set {α : Type} (st : Store α) (key : JStr) (v : α) : Store α :=
  fun k => if k = key then some v else st k

/-! ### Static knowledge table (celebrity database, utils.js) -/

/-- One entry of the pre-computed celebrity database.  The JSON data file is
keyed by normalised name; the object's keys are iterated in insertion order,
so the table is a list of key/entry pairs. -/
structure CelebrityEntry where
  birthDate : String
  birthDateRaw : String
  wikipediaUrl : String
  confidence : Int
  deriving Repr, DecidableEq

/-- The celebrity database: keys in object-insertion order. -/
abbrev CelebrityDb := List (JStr × CelebrityEntry)

/-- Embedding of `fuzzyMatchCelebrity(name)` (utils.js): scan every table key; a
single-token name matches a key's surname; otherwise substring containment in
either direction; otherwise equal surnames plus equal first initials.  First
matching key wins.  (`parts[0][0]` on an empty token is `undefined` in JS and
`undefined === undefined` holds, which `Option.head?` equality mirrors.) -/
def fuzzyMatchCelebrity (db : CelebrityDb) (name : JStr) : Option JStr :=
  let nameParts := splitWs name
  db.findSome? (fun (celebName, _) =>
    let celebParts := splitWs celebName
    if nameParts.length = 1 ∧ celebParts.getLast? = nameParts.head? then
      some celebName
    else if jsIncludes name celebName || jsIncludes celebName name then
      some celebName
    else if 2 ≤ nameParts.length ∧ 2 ≤ celebParts.length ∧
        nameParts.getLast? = celebParts.getLast? ∧
        (nameParts.head?.map List.head?) = (celebParts.head?.map List.head?) then
      some celebName
    else none)

/-- Embedding of `getCelebrityData(name)` (utils.js): exact hit on the normalised key,
else fuzzy fallback annotated with `matchedAs`. -/
def getCelebrityData (db : CelebrityDb) (name : JStr) : Option WikiResult :=
  let normalized := normalizeName name
  match db.lookup normalized with
  | some celeb =>
    some { found := true, birthDate := some celeb.birthDate,
           birthDateRaw := some celeb.birthDateRaw,
           wikipediaUrl := some celeb.wikipediaUrl,
           confidence := some celeb.confidence,
           status := "Found", source := "celebrity-db" }
  | none =>
    match fuzzyMatchCelebrity db normalized with
    | some matchKey =>
      match db.lookup matchKey with
      | some celeb =>
        some { found := true, birthDate := some celeb.birthDate,
               birthDateRaw := some celeb.birthDateRaw,
               wikipediaUrl := some celeb.wikipediaUrl,
               confidence := some celeb.confidence,
               status := "Found", source := "celebrity-db",
               matchedAs := some matchKey }
      | none => none
    | none => none

/-! ### Persistent birthdate registry -/

/-- Embedding of `RegistryEntry` of the birthdate-registry module. -/
structure RegistryEntry where
  birthDate : String
  birthDateRaw : String
  wikipediaUrl : Option String := none
  confidence : Int
  addedAt : Int
  lastAccessedAt : Int
  accessCount : Nat
  source : String
  variants : List JStr := []
  deriving Repr, DecidableEq

/-- Embedding of `MIN_CONFIDENCE_FOR_REGISTRY`. -/
def MIN_CONFIDENCE_FOR_REGISTRY : Int := 80

/-- Embedding of `qualifiesForRegistry(result)`: found, both birth-date fields non-null,
and `(confidence ?? 0) >= 80`. -/
def qualifiesForRegistry (result : WikiResult) : Bool :=
  result.found ∧ result.birthDate.isSome ∧ result.birthDateRaw.isSome ∧
    MIN_CONFIDENCE_FOR_REGISTRY ≤ result.confidence.getD 0

/-- Embedding of `getFromRegistry(name)`: exact key lookup; on a hit the access metadata
is bumped fire-and-forget and a `source: 'registry'` result is returned. -/
def getFromRegistry (st : Store RegistryEntry) (now : Int) (name : JStr) :
    Option WikiResult × Store RegistryEntry :=
  let key := normalizeName name
  match st key with
  | some entry =>
    let updated := { entry with
      lastAccessedAt := now
      accessCount := entry.accessCount + 1 }
    (some { found := true, birthDate := some entry.birthDate,
            birthDateRaw := some entry.birthDateRaw,
            wikipediaUrl := entry.wikipediaUrl,
            confidence := some entry.confidence,
            status := "Found", source := "registry" },
     st.set key updated)
  | none => (none, st)

/-- Embedding of `addToRegistry(name, result, originalSource)`: a no-op returning `false`
unless the result qualifies; a qualifying write merges with any existing
entry (earliest `addedAt`, incremented `accessCount`, prior `source`). -/
def addToRegistry (st : Store RegistryEntry) (now : Int) (name : JStr)
    (result : WikiResult) (originalSource : String) :
    Bool × Store RegistryEntry :=
  if qualifiesForRegistry result then
    let key := normalizeName name
    let existing := st key
    let entry : RegistryEntry :=
      { birthDate := result.birthDate.getD "",
        birthDateRaw := result.birthDateRaw.getD "",
        wikipediaUrl := result.wikipediaUrl,
        confidence := result.confidence.getD MIN_CONFIDENCE_FOR_REGISTRY,
        addedAt := ((existing.map RegistryEntry.addedAt).getD now),
        lastAccessedAt := now,
        accessCount := ((existing.map RegistryEntry.accessCount).getD 0) + 1,
        source := ((existing.map RegistryEntry.source).getD originalSource),
        variants := ((existing.map RegistryEntry.variants).getD []) }
    (true, st.set key entry)
  else (false, st)

/-! ### Ephemeral result cache (utils.js) -/

/-- Embedding of `CACHE_TTL_DAYS` in milliseconds. -/
def cacheTtlMs : Int := 30 * 86400000

/-- Embedding of `getCachedResult(name)`: exact key lookup; a hit older than the TTL is
treated as absent; a valid hit is returned with `source: 'cache'`. -/
def getCachedResult (st : Store WikiResult) (now : Int) (name : JStr) :
    Option WikiResult :=
  let key := normalizeName name
  match st key with
  | some cached =>
    match cached.cachedAt with
    | some t => if now - t < cacheTtlMs then some { cached with source := "cache" }
                else none
    | none => none
  | none => none

/-- Embedding of `setCachedResult(name, result)`: unconditional overwrite, stamping the
entry with the current time. -/
def setCachedResult (st : Store WikiResult) (now : Int) (name : JStr)
    (result : WikiResult) : Store WikiResult :=
  st.set (normalizeName name) { result with cachedAt := some now }

/-! ### Miss registry (misses-registry.ts) -/

/-- Embedding of `MISS_COOLDOWN_DAYS` in milliseconds. -/
def missCooldownMs : Int := 7 * 86400000

/-- Embedding of `MissEntry` of misses-registry.ts.  Reasons and entity types are the
string enums of the source (`'not-found' | 'no-birthdate' | …`,
`'unknown' | 'person' | 'band' | …`). -/
structure MissEntry where
  originalName : JStr
  reason : String
  firstSeenAt : Int
  lastSeenAt : Int
  seenCount : Nat
  entityType : String
  entityTypeConfidence : Int
  wikipediaUrl : Option String := none
  wikipediaTitle : Option String := none
  resolvedBirthDate : Option String := none
  resolvedAt : Option Int := none
  notes : Option String := none
  sampleMarkets : List String := []
  deriving Repr, DecidableEq

/-- Embedding of `checkMissesRegistry(name)`: exact key lookup; the entry is returned only
while `now - lastSeenAt` is inside the cooldown window, in which case the
seen count is bumped fire-and-forget; an expired (or absent) entry yields
`null`. -/
def checkMissesRegistry (st : Store MissEntry) (now : Int) (name : JStr) :
    Option MissEntry × Store MissEntry :=
  let key := normalizeName name
  match st key with
  | some entry =>
    if now - entry.lastSeenAt < missCooldownMs then
      let bumped := { entry with
        lastSeenAt := now
        seenCount := entry.seenCount + 1 }
      (some entry, st.set key bumped)
    else (none, st)
  | none => (none, st)

/-- Options bag of `addToMissesRegistry`. -/
structure MissOptions where
  wikipediaUrl : Option String := none
  wikipediaTitle : Option String := none
  marketTitle : Option String := none
  entityType : Option String := none
  deriving Repr, DecidableEq

/-- Embedding of `addToMissesRegistry(name, reason, options)`: create on first encounter
(`seenCount = 1`), or merge into the existing entry (`seenCount++`,
`lastSeenAt` refreshed); the sample-market list keeps the last three distinct
titles; `entityTypeConfidence` is carried over from the existing entry and is
`0` for a fresh one; manual-resolution fields are preserved. -/
def addToMissesRegistry (st : Store MissEntry) (now : Int) (name : JStr)
    (reason : String) (options : MissOptions) : Bool × Store MissEntry :=
  let key := normalizeName name
  let existing := st key
  let sampleMarkets₀ := (existing.map MissEntry.sampleMarkets).getD []
  let sampleMarkets :=
    match options.marketTitle with
    | some title =>
      if sampleMarkets₀.contains title then sampleMarkets₀
      else (sampleMarkets₀ ++ [title]).drop (sampleMarkets₀.length + 1 - 3)
    | none => sampleMarkets₀
  let entry : MissEntry :=
    { originalName := (existing.map MissEntry.originalName).getD name
      reason := reason
      firstSeenAt := (existing.map MissEntry.firstSeenAt).getD now
      lastSeenAt := now
      seenCount := ((existing.map MissEntry.seenCount).getD 0) + 1
      entityType :=
        options.entityType.getD
          ((existing.map MissEntry.entityType).getD "unknown")
      entityTypeConfidence :=
        (existing.map MissEntry.entityTypeConfidence).getD 0
      wikipediaUrl :=
        options.wikipediaUrl <|> (existing.bind MissEntry.wikipediaUrl)
      wikipediaTitle :=
        options.wikipediaTitle <|> (existing.bind MissEntry.wikipediaTitle)
      sampleMarkets := sampleMarkets
      resolvedBirthDate := existing.bind MissEntry.resolvedBirthDate
      resolvedAt := existing.bind MissEntry.resolvedAt
      notes := existing.bind MissEntry.notes }
  (true, st.set key entry)

/-- Embedding of `resolveMiss(name, birthDate, notes)`: attach a manual resolution to an
existing entry without deleting it; `false` when the entry is absent. -/
def resolveMiss (st : Store MissEntry) (now : Int) (name : JStr)
    (birthDate : String) (notes : Option String) : Bool × Store MissEntry :=
  let key := normalizeName name
  match st key with
  | some existing =>
    let updated := { existing with
      resolvedBirthDate := some birthDate
      resolvedAt := some now
      notes := notes <|> existing.notes }
    (true, st.set key updated)
  | none => (false, st)

/-- Embedding of `classifyMiss(name, entityType, confidence, notes)`: overwrite the entity
classification of an existing entry; `false` when the entry is absent. -/
def classifyMiss (st : Store MissEntry) (name : JStr) (entityType : String)
    (confidence : Int) (notes : Option String) : Bool × Store MissEntry :=
  let key := normalizeName name
  match st key with
  | some existing =>
    let updated := { existing with
      entityType := entityType
      entityTypeConfidence := confidence
      notes := notes <|> existing.notes }
    (true, st.set key updated)
  | none => (false, st)

/-! ## Retry policy (`withRetry`, utils.js)

`fn` is modelled as a map from attempt number to that invocation's outcome;
the observable behaviour of one `withRetry` run is its result together with a
trace of invocations, `onRetry` hook calls, and backoff sleeps. -/

/-- An observable event of a `withRetry` run. -/
inductive RetryEvent (ε : Type) where
  | invoke (attempt : Nat)
  | hookCall (attempt : Nat) (delayMs : Nat) (err : ε)
  | sleepFor (delayMs : Nat)
  deriving Repr, DecidableEq

/-- The loop of `withRetry`: `attempt` is the current 0-based attempt,
`remaining` the number of attempts still allowed after it
(`maxRetries - attempt`).  On failure with attempts remaining and a retryable
error, the hook fires, the backoff `min(base·2^attempt, maxDelay)` elapses,
and the loop continues; otherwise the error is rethrown at once. -/
def retryRun {ε α : Type} (fn : Nat → Except ε α) (shouldR : ε → Bool)
    (baseDelayMs maxDelayMs : Nat) :
    Nat → Nat → List (RetryEvent ε) × Except ε α
  | attempt, 0 =>
    ([RetryEvent.invoke attempt], fn attempt)
  | attempt, remaining + 1 =>
    match fn attempt with
    | Except.ok a => ([RetryEvent.invoke attempt], Except.ok a)
    | Except.error e =>
      if shouldR e then
        let delay := min (baseDelayMs * 2 ^ attempt) maxDelayMs
        let (tail, res) :=
          retryRun fn shouldR baseDelayMs maxDelayMs (attempt + 1) remaining
        (RetryEvent.invoke attempt :: RetryEvent.hookCall (attempt + 1) delay e ::
           RetryEvent.sleepFor delay :: tail, res)
      else ([RetryEvent.invoke attempt], Except.error e)

/-- Embedding of `withRetry(fn, {maxRetries, baseDelayMs, maxDelayMs, shouldRetry, onRetry})`:
attempts run from `0` to `maxRetries` inclusive. -/
def withRetry {ε α : Type} (fn : Nat → Except ε α) (maxRetries : Nat := 3)
    (baseDelayMs : Nat := 1000) (maxDelayMs : Nat := 10000)
    (shouldR : ε → Bool := fun _ => true) :
    List (RetryEvent ε) × Except ε α :=
  retryRun fn shouldR baseDelayMs maxDelayMs 0 maxRetries

/-- The observable prefix of a `withRetry` run that fails retryably at the
`k` consecutive attempts `start, …, start+k−1`: each contributes its
invocation, then the `onRetry` hook call `(attempt+1, delay, err)`, then the
backoff sleep of `delay = min(baseDelay·2^attempt, maxDelay)` — the hook
firing before the wait, as in the source. -/
def retryTrace {ε : Type} (e : Nat → ε) (baseDelayMs maxDelayMs : Nat) :
    Nat → Nat → List (RetryEvent ε)
  | _, 0 => []
  | start, k + 1 =>
    RetryEvent.invoke start ::
    RetryEvent.hookCall (start + 1) (min (baseDelayMs * 2 ^ start) maxDelayMs) (e start) ::
    RetryEvent.sleepFor (min (baseDelayMs * 2 ^ start) maxDelayMs) ::
    retryTrace e baseDelayMs maxDelayMs (start + 1) k

/-! ## Live fetch with retry (crawl.js) -/

/-- Embedding of `a.includes(b)` on error-message strings. -/
def strIncludes (a b : String) : Bool :=
  jsIncludes (a.data.map Char.toNat) (b.data.map Char.toNat)

/-- The `shouldRetry` classifier of `fetchFromWikipediaWithRetry`: never
retry the rate limiter's queue-full rejection; retry network errors and
5xx-class failures, recognised by message substrings. -/
def wikiShouldRetry (msg : String) : Bool :=
  if strIncludes msg "Rate limiter queue full" then false
  else strIncludes msg "fetch" || strIncludes msg "500" ||
       strIncludes msg "502" || strIncludes msg "503"

/-- Embedding of `fetchFromWikipediaWithRetry(name)`: `withRetry` around the rate-limited
fetch with `maxRetries: 2, baseDelayMs: 500, maxDelayMs: 3000`; a run that
ends in an error is caught and converted to a
`{found: false, source: 'wikipedia-error'}` result.  `attempts i` is the
outcome of the `i`-th invocation of the rate-limited remote call (the rate
limiter schedules the call and passes its outcome through unchanged). -/
def fetchFromWikipediaWithRetry (attempts : Nat → Except String WikiResult) :
    WikiResult :=
  match (withRetry attempts 2 500 3000 wikiShouldRetry).2 with
  | Except.ok result => result
  | Except.error msg =>
    { found := false, status := "Error: " ++ msg, source := "wikipedia-error" }

/-! ## Resolution orchestrator (`lookupPersonOptimized`, crawl.js) -/

/-- The three durable stores the orchestrator touches. -/
structure Stores where
  registry : Store RegistryEntry
  cache : Store WikiResult
  misses : Store MissEntry

/-- Embedding of `lookupPersonOptimized(name, log, marketTitle)`.  Layer order: celebrity
database, birthdate registry, TTL cache (with lazy registry promotion), miss
registry in cooldown (synthetic `found:false` result), live fetch.  A live
fetch outcome is always cached; a qualifying one is written to the registry,
any other is classified (`no-birthdate` / `low-confidence` / `not-found`) and
written to the miss registry, attaching the detected entity type when the
detector's confidence exceeds 50.

`detect` is the entity-type classifier (`detectEntityType` of
misses-registry.ts, a keyword heuristic over the raw name) and `attempts`
the remote-fetch behaviour, both inputs of the model. -/
def lookupPersonOptimized (db : CelebrityDb) (detect : JStr → String × Int)
    (attempts : Nat → Except String WikiResult) (st : Stores) (now : Int)
    (name : JStr) (marketTitle : Option String) : WikiResult × Stores :=
  -- Layer 1: celebrity database
  match getCelebrityData db name with
  | some celebData => (celebData, st)
  | none =>
  -- Layer 2: birthdate registry
  match getFromRegistry st.registry now name with
  | (some registryData, registry') => (registryData, { st with registry := registry' })
  | (none, _) =>
  -- Layer 3: blob cache with lazy registry promotion
  match getCachedResult st.cache now name with
  | some cached =>
    if qualifiesForRegistry cached then
      let (_, registry') := addToRegistry st.registry now name cached "cache"
      (cached, { st with registry := registry' })
    else (cached, st)
  | none =>
  -- Layer 4: miss registry in cooldown
  match checkMissesRegistry st.misses now name with
  | (some missEntry, misses') =>
    ({ found := false
       status := "Known miss: " ++ missEntry.reason
       source := "misses-registry"
       missReason := some missEntry.reason
       entityType := some missEntry.entityType
       seenCount := some missEntry.seenCount },
     { st with misses := misses' })
  | (none, _) =>
  -- Layer 5: live fetch with retry, then write-backs
  let result := fetchFromWikipediaWithRetry attempts
  let cache' := setCachedResult st.cache now name result
  if qualifiesForRegistry result then
    let (_, registry') := addToRegistry st.registry now name result "wikipedia"
    (result, { st with cache := cache', registry := registry' })
  else
    -- JS truthiness of `result.birthDate`: null, undefined and "" are falsy
    let birthDateTruthy := (result.birthDate.getD "") ≠ ""
    let missReason :=
      if result.found ∧ ¬birthDateTruthy then "no-birthdate"
      else if result.found ∧ birthDateTruthy ∧
              result.confidence.getD 0 < 80 then "low-confidence"
      else "not-found"
    let entityDetection := detect name
    let (_, misses') := addToMissesRegistry st.misses now name missReason
      { wikipediaUrl := result.wikipediaUrl
        marketTitle := marketTitle
        entityType :=
          if 50 < entityDetection.2 then some entityDetection.1 else none }
    (result, { st with cache := cache', misses := misses' })

/-! ## Rate limiter (rate-limiter.js)

Wall-clock times are rational milliseconds; `tokens` is the fractional token
count of the bucket.  Tasks are identified by their submission index; the
queue holds task identifiers in FIFO order. -/

/-- The mutable state of one `RateLimiter` instance. -/
structure RLState where
  maxTokens : Rat
  tokens : Rat
  refillRate : Rat
  lastRefill : Rat
  maxQueueSize : Nat
  queue : List Nat
  processing : Bool
  deriving Repr, DecidableEq

/-- Embedding of `new RateLimiter({maxRequestsPerSecond, maxQueueSize})`: the bucket
starts full and refills at `maxRequestsPerSecond` tokens per second. -/
def mkRateLimiter (maxRequestsPerSecond : Rat) (maxQueueSize : Nat)
    (now : Rat) : RLState :=
  { maxTokens := maxRequestsPerSecond
    tokens := maxRequestsPerSecond
    refillRate := maxRequestsPerSecond
    lastRefill := now
    maxQueueSize := maxQueueSize
    queue := []
    processing := false }

/-- Embedding of `refillTokens()`: credit `elapsed_seconds · refillRate` tokens, capped at
`maxTokens`. -/
def rlRefill (s : RLState) (now : Rat) : RLState :=
  { s with
    tokens := min s.maxTokens (s.tokens + (now - s.lastRefill) / 1000 * s.refillRate)
    lastRefill := now }

/-- Embedding of `tryAcquire()`: refill, then consume one token if at least one is
available. -/
def rlTryAcquire (s : RLState) (now : Rat) : Bool × RLState :=
  let s₁ := rlRefill s now
  if 1 ≤ s₁.tokens then (true, { s₁ with tokens := s₁.tokens - 1 })
  else (false, s₁)

/-- Embedding of `getWaitTime()`: refill, then the (ceiled) milliseconds until one token
is available. -/
def rlGetWaitTime (s : RLState) (now : Rat) : Int × RLState :=
  let s₁ := rlRefill s now
  if 1 ≤ s₁.tokens then (0, s₁)
  else (⌈(1 - s₁.tokens) / s₁.refillRate * 1000⌉, s₁)

/-- The synchronous admission decision of `execute(fn)`: reject immediately
(leaving the state untouched) when the queue is full, otherwise enqueue.
The returned Bool is `true` exactly when the task was accepted. -/
def rlExecute (s : RLState) (task : Nat) : RLState × Bool :=
  if s.maxQueueSize ≤ s.queue.length then (s, false)
  else ({ s with queue := s.queue ++ [task] }, true)

/-- Submit a burst of tasks back-to-back (each `execute` call's admission
check runs before the next submission).  Returns the final state and the
acceptance flag of each task in submission order. -/
def rlSubmitBurst (s : RLState) (tasks : List Nat) : RLState × List Bool :=
  match tasks with
  | [] => (s, [])
  | t :: ts =>
    let (s₁, ok) := rlExecute s t
    let (s₂, oks) := rlSubmitBurst s₁ ts
    (s₂, ok :: oks)

/-- Embedding of `processQueue()`: the single cooperative runner.  While the queue is
non-empty: compute the wait for one token, advance the clock by it, try to
acquire; on success pop the head task, run it (appending it to the
completion log) and continue; on failure retry.  `fuel` bounds the number of
loop iterations (the real loop is unbounded; every theorem below supplies
enough fuel). -/
def rlProcessLoop : Nat → RLState → Rat → List Nat → List Nat × RLState × Rat
  | 0, s, now, acc => (acc.reverse, s, now)
  | fuel + 1, s, now, acc =>
    match s.queue with
    | [] => (acc.reverse, { s with processing := false }, now)
    | t :: rest =>
      let (waitMs, s₁) := rlGetWaitTime s now
      let now₁ := now + (waitMs : Rat)
      let (ok, s₂) := rlTryAcquire s₁ now₁
      if ok then rlProcessLoop fuel { s₂ with queue := rest } now₁ (t :: acc)
      else rlProcessLoop fuel s₂ now₁ acc

/-! # Theorems -/

/-- Claim C10: for the empty list of names and every set of cached keys,
`calculateBatchSize` returns `baseBatchSize` — the 0/0 cache-hit ratio
satisfies neither the ≥ 0.8 nor the ≥ 0.5 guard (in JS it is `NaN`), the
function is total, and it falls through to the base batch size. -/
theorem C10_empty_names_base_batch (cachedNames : List JStr)
    (baseBatchSize maxBatchSize : Nat) :
    calculateBatchSize [] cachedNames baseBatchSize maxBatchSize =
      baseBatchSize := rfl

/-- Claim C3 (code bug): on the two-person list `["Trump", "Donald Trump"]`
at threshold 50, the similarity of the two names is only
`round((5/12)·90) = 38 < 50`, so `deduplicatePeople` does NOT merge them: it
returns two entries, contradicting the claim (and the repository's own tests
in tests/utils.test.ts, which expect one merged `"Donald Trump"` entry and a
substring similarity ≥ 70). -/
theorem C3_dedup_trump_not_merged :
    nameSimilarity (jstr "Trump") (jstr "Donald Trump") = 38 ∧
    deduplicatePeople (μ := String)
      [{ name := jstr "Trump", nameKey := jstr "trump", markets := ["m1"] },
       { name := jstr "Donald Trump", nameKey := jstr "donald trump",
         markets := ["m2"] }] 50 =
      [{ name := jstr "Trump", nameKey := jstr "trump", markets := ["m1"] },
       { name := jstr "Donald Trump", nameKey := jstr "donald trump",
         markets := ["m2"] }] :=
  ⟨by decide, by decide⟩

/-- Claim C5, counterexample: a result carrying `found: true`, a non-null ISO
date and confidence 80 — everything the claim's qualification predicate
requires — is still rejected by `addToRegistry` (which returns `false` and
writes nothing) because its display `birthDate` is null: the code's
`qualifiesForRegistry` also demands `result.birthDate != null`, which the
claim's predicate omits. -/
theorem C5_counterexample_iso_only_rejected :
    let res : WikiResult :=
      { found := true, birthDateRaw := some "1946-06-14",
        confidence := some 80, status := "Found", source := "wikipedia" }
    let st : Store RegistryEntry := fun _ => none
    res.found = true ∧ res.birthDateRaw.isSome = true ∧
    (80 : Int) ≤ res.confidence.getD 0 ∧
    (addToRegistry st 0 (jstr "x") res "wikipedia").1 = false ∧
    (addToRegistry st 0 (jstr "x") res "wikipedia").2 (normalizeName (jstr "x"))
      = none := by
  refine ⟨rfl, rfl, by decide, by decide, by decide⟩

/-- Claim C5 (amended): `addToRegistry` returns `false` and leaves the store
untouched whenever the result fails the code's qualification predicate
(`found`, display birth date non-null, ISO birth date non-null,
confidence ≥ 80); in particular confidence 79 is rejected, and a found
result with both date fields non-null and confidence 80 is accepted. -/
theorem C5_registry_gate (st : Store RegistryEntry) (now : Int) (name : JStr)
    (res : WikiResult) (src : String) :
    (qualifiesForRegistry res = false →
      addToRegistry st now name res src = (false, st)) ∧
    (res.confidence = some 79 → addToRegistry st now name res src = (false, st)) ∧
    (res.found = true → res.birthDate.isSome = true →
      res.birthDateRaw.isSome = true → res.confidence = some 80 →
      (addToRegistry st now name res src).1 = true) := by
  refine ⟨fun h => by simp [addToRegistry, h], fun h => ?_, fun h₁ h₂ h₃ h₄ => ?_⟩
  · have hq : qualifiesForRegistry res = false := by
      simp [qualifiesForRegistry, h, MIN_CONFIDENCE_FOR_REGISTRY]
    simp [addToRegistry, hq]
  · have hq : qualifiesForRegistry res = true := by
      simp [qualifiesForRegistry, h₁, h₂, h₃, h₄, MIN_CONFIDENCE_FOR_REGISTRY]
    simp [addToRegistry, hq]

/-- Claim C5, witness for `C5_registry_gate`: with confidence 79 the add is
rejected and the store left empty; with confidence 80 and both date fields
present it is accepted. -/
theorem C5_registry_gate_witness :
    (addToRegistry (fun _ => none) 0 (jstr "joe")
      { found := true, birthDate := some "June 14, 1946",
        birthDateRaw := some "1946-06-14", confidence := some 79,
        status := "Found", source := "wikipedia" } "wikipedia"
      = (false, fun _ => none)) ∧
    (addToRegistry (fun _ => none) 0 (jstr "joe")
      { found := true, birthDate := some "June 14, 1946",
        birthDateRaw := some "1946-06-14", confidence := some 80,
        status := "Found", source := "wikipedia" } "wikipedia").1 = true :=
  ⟨(C5_registry_gate _ 0 _ _ _).2.1 rfl,
   (C5_registry_gate _ 0 _ _ _).2.2 rfl rfl rfl rfl⟩

/-- Claim C9: a Miss Registry entry created by `addToMissesRegistry` for a
name with no existing entry always stores `entityTypeConfidence = 0`, no
matter which `entityType` the caller attaches (the orchestrator attaches one
exactly when its detector's confidence exceeds 50, but the confidence value
itself is never forwarded); an existing entry's stored confidence is carried
over unchanged; only the manual `classifyMiss` operation writes a different
(possibly nonzero) confidence. -/
theorem C9_entity_type_confidence (st : Store MissEntry) (now : Int)
    (name : JStr) (reason : String) (opts : MissOptions) :
    (st (normalizeName name) = none →
      ((addToMissesRegistry st now name reason opts).2 (normalizeName name)).map
        MissEntry.entityTypeConfidence = some 0) ∧
    (∀ existing, st (normalizeName name) = some existing →
      ((addToMissesRegistry st now name reason opts).2 (normalizeName name)).map
        MissEntry.entityTypeConfidence = some existing.entityTypeConfidence) ∧
    (∀ existing etype conf notes, st (normalizeName name) = some existing →
      ((classifyMiss st name etype conf notes).2 (normalizeName name)).map
        MissEntry.entityTypeConfidence = some conf) := by
  refine ⟨fun h => ?_, fun existing h => ?_, fun existing etype conf notes h => ?_⟩
  · simp [addToMissesRegistry, Store.set, h]
  · simp [addToMissesRegistry, Store.set, h]
  · simp [classifyMiss, Store.set, h]

/-- Claim C9, witness for `C9_entity_type_confidence`: a fresh miss written
with an attached `entityType := "band"` (as the orchestrator does when the
detector reports confidence > 50) still stores `entityTypeConfidence = 0`,
and a subsequent `classifyMiss` with confidence 80 stores 80. -/
theorem C9_entity_type_confidence_witness :
    (((addToMissesRegistry (fun _ => none) 0 (jstr "One Direction") "not-found"
        { entityType := some "band" }).2
        (normalizeName (jstr "One Direction"))).map
        MissEntry.entityTypeConfidence = some 0) ∧
    (((classifyMiss
        (Store.set (fun _ => none) (normalizeName (jstr "One Direction"))
          { originalName := jstr "One Direction", reason := "not-found",
            firstSeenAt := 0, lastSeenAt := 0, seenCount := 1,
            entityType := "band", entityTypeConfidence := 0 })
        (jstr "One Direction") "band" 80 none).2
        (normalizeName (jstr "One Direction"))).map
        MissEntry.entityTypeConfidence = some 80) :=
  ⟨(C9_entity_type_confidence _ 0 _ "not-found" _).1 rfl,
   (C9_entity_type_confidence
      (Store.set (fun _ => none) (normalizeName (jstr "One Direction"))
        { originalName := jstr "One Direction", reason := "not-found",
          firstSeenAt := 0, lastSeenAt := 0, seenCount := 1,
          entityType := "band", entityTypeConfidence := 0 })
      0 (jstr "One Direction") "not-found"
      { entityType := some "band" }).2.2
     { originalName := jstr "One Direction", reason := "not-found",
       firstSeenAt := 0, lastSeenAt := 0, seenCount := 1,
       entityType := "band", entityTypeConfidence := 0 }
     "band" 80 none (by decide)⟩

/-- Claim C2, counterexample: a Miss Registry entry last seen at `t0 = 0`
exists in the store, yet `checkMissesRegistry` at `t0 + cooldown + 1s`
returns `null` — not the entry, contradicting the claim that the read call
still returns it for telemetry once the cooldown has expired
(misses-registry.ts falls through to `return null` in that case). -/
theorem C2_counterexample_expired_read_returns_null :
    let entry : MissEntry :=
      { originalName := jstr "Acme Corp", reason := "not-found",
        firstSeenAt := 0, lastSeenAt := 0, seenCount := 1,
        entityType := "unknown", entityTypeConfidence := 0 }
    let st : Store MissEntry :=
      Store.set (fun _ => none) (normalizeName (jstr "Acme Corp")) entry
    st (normalizeName (jstr "Acme Corp")) = some entry ∧
    (checkMissesRegistry st (missCooldownMs + 1000) (jstr "Acme Corp")).1
      = none := by
  exact ⟨by decide, by decide⟩

/-- Claim C2 (amended): for a Miss Registry entry with `lastSeenAt = t0`, a
check at `t0 + cooldown − 1s` returns the entry — and suppresses the live
fetch: with layers 1–3 missing, the orchestrator answers from the miss
registry; a check at `t0 + cooldown + 1s` returns `null` (the entry is NOT
returned once the cooldown has expired) and the live fetch is not
suppressed: the orchestrator's result is exactly the live-fetch outcome. -/
theorem C2_miss_cooldown_boundary (st : Store MissEntry) (name : JStr)
    (entry : MissEntry) (t0 : Int)
    (hst : st (normalizeName name) = some entry)
    (hseen : entry.lastSeenAt = t0) :
    (checkMissesRegistry st (t0 + missCooldownMs - 1000) name).1 = some entry ∧
    (checkMissesRegistry st (t0 + missCooldownMs + 1000) name).1 = none ∧
    (∀ (db : CelebrityDb) (detect : JStr → String × Int)
       (attempts : Nat → Except String WikiResult)
       (registry : Store RegistryEntry) (cache : Store WikiResult)
       (marketTitle : Option String),
       getCelebrityData db name = none →
       registry (normalizeName name) = none →
       cache (normalizeName name) = none →
       (lookupPersonOptimized db detect attempts ⟨registry, cache, st⟩
          (t0 + missCooldownMs - 1000) name marketTitle).1.source
         = "misses-registry" ∧
       (lookupPersonOptimized db detect attempts ⟨registry, cache, st⟩
          (t0 + missCooldownMs + 1000) name marketTitle).1
         = fetchFromWikipediaWithRetry attempts) := by
  have hin : t0 + missCooldownMs - 1000 - entry.lastSeenAt < missCooldownMs := by
    rw [hseen]; omega
  have hout : ¬ (t0 + missCooldownMs + 1000 - entry.lastSeenAt < missCooldownMs) := by
    rw [hseen]; omega
  refine ⟨?_, ?_, ?_⟩
  · simp [checkMissesRegistry, hst, hin]
  · simp [checkMissesRegistry, hst, hout]
  · intro db detect attempts registry cache marketTitle hdb hreg hcache
    constructor
    · simp [lookupPersonOptimized, hdb, getFromRegistry, hreg,
            getCachedResult, hcache, checkMissesRegistry, hst, hin]
    · simp only [lookupPersonOptimized, hdb, getFromRegistry, hreg,
                 getCachedResult, hcache, checkMissesRegistry, hst, hout,
                 if_false]
      split <;> rfl

/-- Claim C2, witness for `C2_miss_cooldown_boundary` at a concrete store,
entry and clock. -/
theorem C2_miss_cooldown_boundary_witness :
    (checkMissesRegistry
       (Store.set (fun _ => none) (normalizeName (jstr "Acme Corp"))
         { originalName := jstr "Acme Corp", reason := "not-found",
           firstSeenAt := 0, lastSeenAt := 0, seenCount := 1,
           entityType := "unknown", entityTypeConfidence := 0 })
       (0 + missCooldownMs - 1000) (jstr "Acme Corp")).1
      = some { originalName := jstr "Acme Corp", reason := "not-found",
               firstSeenAt := 0, lastSeenAt := 0, seenCount := 1,
               entityType := "unknown", entityTypeConfidence := 0 } ∧
    (checkMissesRegistry
       (Store.set (fun _ => none) (normalizeName (jstr "Acme Corp"))
         { originalName := jstr "Acme Corp", reason := "not-found",
           firstSeenAt := 0, lastSeenAt := 0, seenCount := 1,
           entityType := "unknown", entityTypeConfidence := 0 })
       (0 + missCooldownMs + 1000) (jstr "Acme Corp")).1 = none :=
  ⟨(C2_miss_cooldown_boundary _ _
      { originalName := jstr "Acme Corp", reason := "not-found",
        firstSeenAt := 0, lastSeenAt := 0, seenCount := 1,
        entityType := "unknown", entityTypeConfidence := 0 }
      0 (by decide) rfl).1,
   (C2_miss_cooldown_boundary _ _
      { originalName := jstr "Acme Corp", reason := "not-found",
        firstSeenAt := 0, lastSeenAt := 0, seenCount := 1,
        entityType := "unknown", entityTypeConfidence := 0 }
      0 (by decide) rfl).2.1⟩

/-- Claim C4: `nameSimilarity` computes, on the normalized forms, the first
matching tier of the specification's algorithm — exact match → 100; substring
→ `round((len shorter / len longer)·90)`; non-empty token-set intersection →
`round(Jaccard·80)`; both shorter than 20 characters →
`max 0 (round((1 − editDistance/maxLen)·70))`; otherwise 0 — as witnessed by
pointwise agreement with `nameSimilaritySpec`, the tier list transcribed from
the specification. -/
theorem C4_similarity_tiers (a b : JStr) :
    nameSimilarity a b = nameSimilaritySpec a b := by
  simp only [nameSimilarity, nameSimilaritySpec]
  split_ifs <;> first | rfl | (congr 1 <;> omega)

/-- A miss-registry read that reports no active entry leaves the store
untouched (both the absent-entry and the expired-cooldown paths return the
store unchanged). -/
theorem checkMissesRegistry_eq_of_none (st : Store MissEntry) (now : Int)
    (name : JStr) (h : (checkMissesRegistry st now name).1 = none) :
    checkMissesRegistry st now name = (none, st) := by
  unfold checkMissesRegistry at h ⊢
  cases hst : st (normalizeName name) with
  | none => simp [hst]
  | some entry =>
    simp only [hst] at h ⊢
    split at h
    · simp at h
    · simp_all

/-- If every attempt of `fn` fails, `retryRun` ends in an error. -/
theorem retryRun_error_of_all_error {ε α : Type} (fn : Nat → Except ε α)
    (sR : ε → Bool) (base maxD : Nat)
    (hfail : ∀ i, ∃ e, fn i = Except.error e) :
    ∀ remaining attempt, ∃ e,
      (retryRun fn sR base maxD attempt remaining).2 = Except.error e := by
  intro remaining
  induction remaining with
  | zero =>
    intro attempt
    obtain ⟨e, he⟩ := hfail attempt
    exact ⟨e, by simp [retryRun, he]⟩
  | succ r ih =>
    intro attempt
    obtain ⟨e, he⟩ := hfail attempt
    by_cases hr : sR e = true
    · obtain ⟨e', he'⟩ := ih (attempt + 1)
      refine ⟨e', ?_⟩
      simp only [retryRun, he, hr, if_true]
      exact he'
    · exact ⟨e, by simp [retryRun, he, hr]⟩

/-- If every attempt fails, the caught result of
`fetchFromWikipediaWithRetry` is the `found:false` error result. -/
theorem fetchFromWikipediaWithRetry_all_error
    (attempts : Nat → Except String WikiResult)
    (hfail : ∀ i, ∃ e, attempts i = Except.error e) :
    ∃ msg, fetchFromWikipediaWithRetry attempts =
      { found := false, status := "Error: " ++ msg,
        source := "wikipedia-error" } := by
  obtain ⟨msg, hmsg⟩ :=
    retryRun_error_of_all_error attempts wikiShouldRetry 500 3000 hfail 2 0
  exact ⟨msg, by simp [fetchFromWikipediaWithRetry, withRetry, hmsg]⟩

/-- Claim C1, counterexample: with all four cache layers empty and a live
fetch whose every attempt rejects, `lookupPersonOptimized` returns the
`found:false` / `wikipedia-error` result and caches it — but it ALSO writes
the name to the Miss Registry under the content-based reason `"not-found"`,
contradicting the claim that a transport failure is never recorded there. -/
theorem C1_counterexample_error_written_to_misses :
    let attempts : Nat → Except String WikiResult :=
      fun _ => Except.error "fetch failed"
    let st : Stores := ⟨fun _ => none, fun _ => none, fun _ => none⟩
    let out := lookupPersonOptimized [] (fun _ => ("unknown", 0)) attempts st 0
      (jstr "Zzz Qqq") none
    out.1.found = false ∧ out.1.source = "wikipedia-error" ∧
    (out.2.cache (normalizeName (jstr "Zzz Qqq"))).isSome = true ∧
    (out.2.misses (normalizeName (jstr "Zzz Qqq"))).map MissEntry.reason
      = some "not-found" := by
  exact ⟨by decide, by decide, by decide, by decide⟩

/-- Claim C1 (amended): for every name that misses layers 1–4 and whose live
fetch exhausts all retries (every attempt rejects), the orchestrator returns
a `found:false` result with the error result-source; this result is written
to the Ephemeral Result Cache AND the name is also written to the Miss
Registry, under the content-based reason `"not-found"` (the write-back does
not distinguish transport failures from content misses). -/
theorem C1_error_result_cached_and_recorded (db : CelebrityDb)
    (detect : JStr → String × Int) (attempts : Nat → Except String WikiResult)
    (registry : Store RegistryEntry) (cache : Store WikiResult)
    (misses : Store MissEntry) (now : Int) (name : JStr)
    (marketTitle : Option String)
    (hdb : getCelebrityData db name = none)
    (hreg : registry (normalizeName name) = none)
    (hcache : getCachedResult cache now name = none)
    (hmiss : (checkMissesRegistry misses now name).1 = none)
    (hfail : ∀ i, ∃ e, attempts i = Except.error e) :
    (lookupPersonOptimized db detect attempts ⟨registry, cache, misses⟩ now
        name marketTitle).1.found = false ∧
    (lookupPersonOptimized db detect attempts ⟨registry, cache, misses⟩ now
        name marketTitle).1.source = "wikipedia-error" ∧
    (lookupPersonOptimized db detect attempts ⟨registry, cache, misses⟩ now
        name marketTitle).2.cache (normalizeName name) =
      some { (lookupPersonOptimized db detect attempts ⟨registry, cache,
               misses⟩ now name marketTitle).1 with cachedAt := some now } ∧
    ((lookupPersonOptimized db detect attempts ⟨registry, cache, misses⟩ now
        name marketTitle).2.misses (normalizeName name)).map MissEntry.reason
      = some "not-found" := by
  obtain ⟨msg, hfetch⟩ := fetchFromWikipediaWithRetry_all_error attempts hfail
  have hm := checkMissesRegistry_eq_of_none misses now name hmiss
  have hq : qualifiesForRegistry (fetchFromWikipediaWithRetry attempts) = false := by
    simp [hfetch, qualifiesForRegistry]
  rw [hfetch] at hq
  simp only [lookupPersonOptimized, hdb, getFromRegistry, hreg, hcache, hm,
             hfetch, hq, Bool.false_eq_true, if_false]
  refine ⟨by trivial, by trivial, ?_, ?_⟩
  · simp [setCachedResult, Store.set]
  · simp [addToMissesRegistry, Store.set]

/-- Claim C1, witness for `C1_error_result_cached_and_recorded` at a
concrete empty environment and an always-failing fetch. -/
theorem C1_error_result_cached_and_recorded_witness :
    (lookupPersonOptimized [] (fun _ => ("unknown", 0))
        (fun _ => Except.error "fetch failed") ⟨fun _ => none, fun _ => none,
        fun _ => none⟩ 0 (jstr "Zzz Qqq") none).1.found = false ∧
    (lookupPersonOptimized [] (fun _ => ("unknown", 0))
        (fun _ => Except.error "fetch failed") ⟨fun _ => none, fun _ => none,
        fun _ => none⟩ 0 (jstr "Zzz Qqq") none).1.source = "wikipedia-error" ∧
    (lookupPersonOptimized [] (fun _ => ("unknown", 0))
        (fun _ => Except.error "fetch failed") ⟨fun _ => none, fun _ => none,
        fun _ => none⟩ 0 (jstr "Zzz Qqq") none).2.cache
        (normalizeName (jstr "Zzz Qqq")) =
      some { (lookupPersonOptimized [] (fun _ => ("unknown", 0))
               (fun _ => Except.error "fetch failed") ⟨fun _ => none,
               fun _ => none, fun _ => none⟩ 0 (jstr "Zzz Qqq") none).1 with
             cachedAt := some 0 } ∧
    ((lookupPersonOptimized [] (fun _ => ("unknown", 0))
        (fun _ => Except.error "fetch failed") ⟨fun _ => none, fun _ => none,
        fun _ => none⟩ 0 (jstr "Zzz Qqq") none).2.misses
        (normalizeName (jstr "Zzz Qqq"))).map MissEntry.reason
      = some "not-found" :=
  C1_error_result_cached_and_recorded [] (fun _ => ("unknown", 0))
    (fun _ => Except.error "fetch failed") (fun _ => none) (fun _ => none)
    (fun _ => none) 0 (jstr "Zzz Qqq") none rfl rfl rfl rfl
    (fun _ => ⟨"fetch failed", rfl⟩)

/-- A successful invocation nets exactly one `invoke` event and returns the
value, whatever budget remains. -/
theorem retryRun_ok {ε α : Type} (fn : Nat → Except ε α) (sR : ε → Bool)
    (base maxD : Nat) (t : Nat) (a : α) (h : fn t = Except.ok a) :
    ∀ r, retryRun fn sR base maxD t r = ([RetryEvent.invoke t], Except.ok a) := by
  intro r
  cases r with
  | zero => simp [retryRun, h]
  | succ r => simp [retryRun, h]

/-- Exhausted budget: the final attempt's error is rethrown at once. -/
theorem retryRun_exhausted {ε α : Type} (fn : Nat → Except ε α) (sR : ε → Bool)
    (base maxD : Nat) (t : Nat) :
    retryRun fn sR base maxD t 0 = ([RetryEvent.invoke t], fn t) := by
  simp [retryRun]

/-- A non-retryable error is rethrown at once, whatever budget remains. -/
theorem retryRun_noRetry {ε α : Type} (fn : Nat → Except ε α) (sR : ε → Bool)
    (base maxD : Nat) (t : Nat) (e : ε) (h : fn t = Except.error e)
    (hsr : sR e = false) :
    ∀ r, retryRun fn sR base maxD t r = ([RetryEvent.invoke t], Except.error e) := by
  intro r
  cases r with
  | zero => simp [retryRun, h]
  | succ r => simp [retryRun, h, hsr]

/-- Skipping over `k` consecutive retryable failures: the run's trace is the
`retryTrace` prefix followed by the remainder of the run starting at attempt
`start + k` with `k` fewer attempts in the budget. -/
theorem retryRun_skip {ε α : Type} (fn : Nat → Except ε α) (sR : ε → Bool)
    (base maxD : Nat) (e : Nat → ε) :
    ∀ (k start remaining : Nat),
      (∀ j, j < k → fn (start + j) = Except.error (e (start + j)) ∧
        sR (e (start + j)) = true) →
      k ≤ remaining →
      retryRun fn sR base maxD start remaining =
        (retryTrace e base maxD start k ++
          (retryRun fn sR base maxD (start + k) (remaining - k)).1,
         (retryRun fn sR base maxD (start + k) (remaining - k)).2) := by
  intro k
  induction k with
  | zero => intro start remaining _ _; simp [retryTrace]
  | succ k ih =>
    intro start remaining h hle
    obtain ⟨r, rfl⟩ : ∃ r, remaining = r + 1 :=
      ⟨remaining - 1, by omega⟩
    obtain ⟨h0, hsr0⟩ := by simpa using h 0 (by omega)
    have hrec := ih (start + 1) r
      (fun j hj => by
        have h' := h (j + 1) (by omega)
        have heq : start + (j + 1) = start + 1 + j := by omega
        rw [heq] at h'
        exact h')
      (by omega)
    have harith : start + 1 + k = start + (k + 1) := by omega
    have harith2 : r - k = r + 1 - (k + 1) := by omega
    simp only [retryRun, h0, hsr0, if_true, hrec, retryTrace, harith, harith2,
               List.cons_append, List.append_assoc]

/-- Claim C7: behaviour of `withRetry(fn, opts)`.  Writing `delay(i) =
min(baseDelay·2^i, maxDelay)` and `e i` for the error of a failed attempt
`i`: (a) if attempts `0..k−1` fail retryably (`k ≤ maxRetries`) and attempt
`k` succeeds, the run invokes `fn` exactly at attempts `0..k` (at most
`maxRetries+1` invocations), fires `onRetry(i+1, delay(i), e i)` and then
sleeps `delay(i)` after each failed attempt `i`, and returns the success
value; (b) if attempts `0..maxRetries−1` fail retryably and the final
attempt `maxRetries` also fails, that last error is rethrown immediately;
(c) if attempts `0..k−1` fail retryably and attempt `k ≤ maxRetries` fails
with `shouldRetry(err) = false`, that error is rethrown immediately with no
further invocation, hook call or sleep. -/
theorem C7_withRetry_behaviour {ε α : Type} (fn : Nat → Except ε α)
    (sR : ε → Bool) (base maxD m : Nat) (e : Nat → ε) :
    (∀ k a, k ≤ m →
      (∀ j, j < k → fn j = Except.error (e j) ∧ sR (e j) = true) →
      fn k = Except.ok a →
      withRetry fn m base maxD sR =
        (retryTrace e base maxD 0 k ++ [RetryEvent.invoke k], Except.ok a)) ∧
    ((∀ j, j < m → fn j = Except.error (e j) ∧ sR (e j) = true) →
      ∀ em, fn m = Except.error em →
      withRetry fn m base maxD sR =
        (retryTrace e base maxD 0 m ++ [RetryEvent.invoke m],
         Except.error em)) ∧
    (∀ k ek, k ≤ m →
      (∀ j, j < k → fn j = Except.error (e j) ∧ sR (e j) = true) →
      fn k = Except.error ek → sR ek = false →
      withRetry fn m base maxD sR =
        (retryTrace e base maxD 0 k ++ [RetryEvent.invoke k],
         Except.error ek)) := by
  refine ⟨fun k a hk h hok => ?_, fun h em hm => ?_, fun k ek hk h herr hsr => ?_⟩
  · have hskip := retryRun_skip fn sR base maxD e k 0 m (by simpa using h) hk
    rw [Nat.zero_add] at hskip
    rw [withRetry, hskip, retryRun_ok fn sR base maxD k a hok]
  · have hskip := retryRun_skip fn sR base maxD e m 0 m (by simpa using h) le_rfl
    rw [Nat.zero_add] at hskip
    rw [withRetry, hskip]
    simp [retryRun_exhausted, hm]
  · have hskip := retryRun_skip fn sR base maxD e k 0 m (by simpa using h) hk
    rw [Nat.zero_add] at hskip
    rw [withRetry, hskip, retryRun_noRetry fn sR base maxD k ek herr hsr]

/-- Claim C7, witness for `C7_withRetry_behaviour`: a concrete run whose
attempt 0 fails retryably and whose attempt 1 succeeds invokes attempts 0
and 1, fires the hook with delay `min(1000·2^0, 10000) = 1000`, sleeps, and
returns the value. -/
theorem C7_withRetry_behaviour_witness :
    withRetry (fun i => if i = 0 then Except.error "boom" else Except.ok 42)
      3 1000 10000 (fun _ => true) =
      ([RetryEvent.invoke 0, RetryEvent.hookCall 1 1000 "boom",
        RetryEvent.sleepFor 1000, RetryEvent.invoke 1], Except.ok 42) := by
  have := (C7_withRetry_behaviour
    (fun i => if i = 0 then Except.error "boom" else Except.ok 42)
    (fun _ => true) 1000 10000 3 (fun _ => "boom")).1 1 42 (by omega)
    (by intro j hj
        have hj0 : j = 0 := by omega
        subst hj0
        exact ⟨rfl, rfl⟩)
    rfl
  simpa [retryTrace] using this

/-- After `getWaitTime`'s wait has elapsed, `tryAcquire` always succeeds:
the ceiled wait credits at least the missing fraction of a token (the bucket
holds at least one token because `maxTokens ≥ 1` caps the refill from
above).  The acquired state keeps the queue and configuration intact and its
token count stays within `[0, maxTokens]`. -/
theorem rl_wait_then_acquire (s : RLState) (now : Rat)
    (hmax : 1 ≤ s.maxTokens) (hrate : 0 < s.refillRate)
    (htok0 : 0 ≤ s.tokens) (_htokM : s.tokens ≤ s.maxTokens)
    (hlr : s.lastRefill ≤ now) :
    (rlTryAcquire (rlGetWaitTime s now).2
      (now + ((rlGetWaitTime s now).1 : Rat))).1 = true ∧
    0 ≤ (rlTryAcquire (rlGetWaitTime s now).2
      (now + ((rlGetWaitTime s now).1 : Rat))).2.tokens ∧
    (rlTryAcquire (rlGetWaitTime s now).2
      (now + ((rlGetWaitTime s now).1 : Rat))).2.tokens ≤ s.maxTokens ∧
    (rlTryAcquire (rlGetWaitTime s now).2
      (now + ((rlGetWaitTime s now).1 : Rat))).2.lastRefill =
      now + ((rlGetWaitTime s now).1 : Rat) ∧
    (rlTryAcquire (rlGetWaitTime s now).2
      (now + ((rlGetWaitTime s now).1 : Rat))).2.maxTokens = s.maxTokens ∧
    (rlTryAcquire (rlGetWaitTime s now).2
      (now + ((rlGetWaitTime s now).1 : Rat))).2.refillRate = s.refillRate ∧
    (rlTryAcquire (rlGetWaitTime s now).2
      (now + ((rlGetWaitTime s now).1 : Rat))).2.queue = s.queue ∧
    (rlTryAcquire (rlGetWaitTime s now).2
      (now + ((rlGetWaitTime s now).1 : Rat))).2.maxQueueSize =
      s.maxQueueSize ∧
    (rlTryAcquire (rlGetWaitTime s now).2
      (now + ((rlGetWaitTime s now).1 : Rat))).2.processing = s.processing ∧
    now ≤ now + ((rlGetWaitTime s now).1 : Rat) := by
  have hadd : 0 ≤ (now - s.lastRefill) / 1000 * s.refillRate := by
    have h1 : (0 : Rat) ≤ now - s.lastRefill := by linarith
    positivity
  set t₁ : Rat := min s.maxTokens
    (s.tokens + (now - s.lastRefill) / 1000 * s.refillRate) with ht₁
  have ht₁0 : 0 ≤ t₁ := le_min (by linarith) (by linarith)
  have ht₁M : t₁ ≤ s.maxTokens := min_le_left _ _
  by_cases hge : 1 ≤ t₁
  · -- a token is already available: zero wait, immediate acquisition
    have hw : rlGetWaitTime s now = (0, rlRefill s now) := by
      simp only [rlGetWaitTime, rlRefill, ← ht₁]
      rw [if_pos hge]
    simp only [hw, rlTryAcquire, rlRefill]
    simp only [Int.cast_zero, add_zero, sub_self, zero_div, zero_mul, add_zero]
    rw [min_eq_right ht₁M]
    rw [if_pos hge]
    refine ⟨rfl, by dsimp only; linarith, by dsimp only; linarith,
            rfl, rfl, rfl, rfl, rfl, rfl, le_refl _⟩
  · -- wait for the ceiled refill time, after which at least one token exists
    push_neg at hge
    have hw : rlGetWaitTime s now =
        (⌈(1 - t₁) / s.refillRate * 1000⌉, rlRefill s now) := by
      simp only [rlGetWaitTime, rlRefill, ← ht₁]
      rw [if_neg (by linarith)]
    have hwait : ((1 : Rat) - t₁) / s.refillRate * 1000 ≤
        ((⌈(1 - t₁) / s.refillRate * 1000⌉ : Int) : Rat) := Int.le_ceil _
    have hexact : ((1 : Rat) - t₁) / s.refillRate * 1000 / 1000 * s.refillRate
        = 1 - t₁ := by
      field_simp
      ring
    have hmono : ((1 : Rat) - t₁) / s.refillRate * 1000 / 1000 * s.refillRate ≤
        ((⌈(1 - t₁) / s.refillRate * 1000⌉ : Int) : Rat) / 1000 * s.refillRate := by
      have hdiv : ((1 : Rat) - t₁) / s.refillRate * 1000 / 1000 ≤
          ((⌈(1 - t₁) / s.refillRate * 1000⌉ : Int) : Rat) / 1000 :=
        (div_le_div_iff_of_pos_right (by norm_num : (0 : Rat) < 1000)).mpr hwait
      exact mul_le_mul_of_nonneg_right hdiv (le_of_lt hrate)
    have hcredit : (1 : Rat) ≤ t₁ +
        ((⌈(1 - t₁) / s.refillRate * 1000⌉ : Int) : Rat) / 1000 * s.refillRate := by
      linarith [hexact ▸ hmono]
    have hwpos : (0 : Rat) ≤ ((⌈(1 - t₁) / s.refillRate * 1000⌉ : Int) : Rat) := by
      have h10 : (0 : Rat) ≤ (1 - t₁) / s.refillRate * 1000 := by
        have h1t : (0 : Rat) ≤ 1 - t₁ := by linarith
        have := div_nonneg h1t (le_of_lt hrate)
        linarith
      linarith
    simp only [hw, rlTryAcquire, rlRefill]
    simp only [← ht₁, add_sub_cancel_left]
    have htok2 : (1 : Rat) ≤ min s.maxTokens
        (t₁ + ((⌈(1 - t₁) / s.refillRate * 1000⌉ : Int) : Rat) / 1000 *
          s.refillRate) := le_min hmax hcredit
    rw [if_pos htok2]
    have hmin : min s.maxTokens
        (t₁ + ((⌈(1 - t₁) / s.refillRate * 1000⌉ : Int) : Rat) / 1000 *
          s.refillRate) ≤ s.maxTokens := min_le_left _ _
    refine ⟨rfl, by dsimp only; linarith, by dsimp only; linarith,
            rfl, rfl, rfl, rfl, rfl, rfl, by linarith⟩

/-- The single cooperative runner completes the queued tasks in exactly
queue (FIFO) order: with a well-formed bucket (`maxTokens ≥ 1`, positive
refill rate, `0 ≤ tokens ≤ maxTokens`, clock at or after the last refill)
and enough fuel, every iteration acquires a token after its wait, so the
completion log is the accumulator followed by the queue. -/
theorem rlProcessLoop_fifo :
    ∀ (fuel : Nat) (s : RLState) (now : Rat) (acc : List Nat),
      1 ≤ s.maxTokens → 0 < s.refillRate → 0 ≤ s.tokens →
      s.tokens ≤ s.maxTokens → s.lastRefill ≤ now →
      s.queue.length ≤ fuel →
      (rlProcessLoop fuel s now acc).1 = acc.reverse ++ s.queue := by
  intro fuel
  induction fuel with
  | zero =>
    intro s now acc _ _ _ _ _ hlen
    have hq : s.queue = [] := List.length_eq_zero.mp (Nat.le_zero.mp hlen)
    simp [rlProcessLoop, hq]
  | succ fuel ih =>
    intro s now acc hmax hrate htok0 htokM hlr hlen
    match hq : s.queue with
    | [] => simp [rlProcessLoop, hq]
    | t :: rest =>
      obtain ⟨hok, h0, hM, hlr2, hmax2, hrate2, hqueue2, _, _, hnow⟩ :=
        rl_wait_then_acquire s now hmax hrate htok0 htokM hlr
      simp only [rlProcessLoop, hq]
      rw [hok]
      simp only [if_true]
      have := ih { (rlTryAcquire (rlGetWaitTime s now).2
          (now + ((rlGetWaitTime s now).1 : Rat))).2 with queue := rest }
        (now + ((rlGetWaitTime s now).1 : Rat)) (t :: acc)
        (by simpa [hmax2] using hmax) (by simpa [hrate2] using hrate)
        (by simpa using h0) (by simpa [hmax2] using hM)
        (by simp [hlr2])
        (by
          have hlen' := hlen
          rw [hq] at hlen'
          simpa using Nat.le_of_succ_le_succ hlen')
      simpa [List.append_assoc] using this

/-- A burst of `execute` admissions: the limiter's bucket state is untouched
(admission only inspects and grows the queue), the queue gains exactly the
accepted tasks in submission order, and the queue bound is preserved. -/
theorem rlSubmitBurst_spec :
    ∀ (tasks : List Nat) (s : RLState),
      (rlSubmitBurst s tasks).1.maxTokens = s.maxTokens ∧
      (rlSubmitBurst s tasks).1.tokens = s.tokens ∧
      (rlSubmitBurst s tasks).1.refillRate = s.refillRate ∧
      (rlSubmitBurst s tasks).1.lastRefill = s.lastRefill ∧
      (rlSubmitBurst s tasks).1.maxQueueSize = s.maxQueueSize ∧
      (rlSubmitBurst s tasks).1.queue =
        s.queue ++ ((tasks.zip (rlSubmitBurst s tasks).2).filterMap
          (fun p => if p.2 then some p.1 else none)) ∧
      (s.queue.length ≤ s.maxQueueSize →
        (rlSubmitBurst s tasks).1.queue.length ≤ s.maxQueueSize) := by
  intro tasks
  induction tasks with
  | nil => intro s; simp [rlSubmitBurst]
  | cons t ts ih =>
    intro s
    by_cases hfull : s.maxQueueSize ≤ s.queue.length
    · -- the head task is rejected; the state is unchanged
      have hex : rlExecute s t = (s, false) := by simp [rlExecute, hfull]
      obtain ⟨m1, m2, m3, m4, m5, m6, m7⟩ := ih s
      simp only [rlSubmitBurst, hex]
      exact ⟨m1, m2, m3, m4, m5, by simpa using m6, m7⟩
    · -- the head task is accepted and appended to the queue
      push_neg at hfull
      have hex : rlExecute s t = ({ s with queue := s.queue ++ [t] }, true) := by
        simp [rlExecute, Nat.not_le.mpr hfull]
      obtain ⟨m1, m2, m3, m4, m5, m6, m7⟩ := ih { s with queue := s.queue ++ [t] }
      simp only [rlSubmitBurst, hex]
      refine ⟨m1, m2, m3, m4, m5, by simpa [List.append_assoc] using m6, ?_⟩
      intro hbound
      exact m7 (by simpa using Nat.succ_le_of_lt hfull)

/-- Claim C6: (a) `execute` on a full queue rejects immediately, leaving the
limiter untouched (nothing is enqueued), so (b) the queue length never
exceeds `maxQueueSize`; (c) after any burst of submissions into a
well-formed limiter, the runner completes exactly the accepted tasks, in
their submission (FIFO) order; (d) submitting the five-task burst
`[0,1,2,3,4]` to a limiter with `maxRequestsPerSecond = 1, maxQueueSize = 2`
rejects at least one task. -/
theorem C6_rate_limiter_fifo_and_bound :
    (∀ (s : RLState) (t : Nat), s.maxQueueSize ≤ s.queue.length →
      rlExecute s t = (s, false)) ∧
    (∀ (s : RLState) (t : Nat), s.queue.length ≤ s.maxQueueSize →
      (rlExecute s t).1.queue.length ≤ s.maxQueueSize) ∧
    (∀ (tasks : List Nat) (s : RLState) (now : Rat) (fuel : Nat),
      1 ≤ s.maxTokens → 0 < s.refillRate → 0 ≤ s.tokens →
      s.tokens ≤ s.maxTokens → s.lastRefill ≤ now → s.queue = [] →
      tasks.length ≤ fuel →
      (rlProcessLoop fuel (rlSubmitBurst s tasks).1 now []).1 =
        (tasks.zip (rlSubmitBurst s tasks).2).filterMap
          (fun p => if p.2 then some p.1 else none)) ∧
    ((rlSubmitBurst (mkRateLimiter 1 2 0) [0, 1, 2, 3, 4]).2.contains false
      = true) := by
  refine ⟨fun s t h => by simp [rlExecute, h], fun s t h => ?_, ?_, by decide⟩
  · by_cases hfull : s.maxQueueSize ≤ s.queue.length
    · simpa [rlExecute, hfull] using h
    · push_neg at hfull
      simp only [rlExecute, Nat.not_le.mpr hfull, if_false]
      simpa using Nat.succ_le_of_lt hfull
  · intro tasks s now fuel hmax hrate htok0 htokM hlr hq hfuel
    obtain ⟨m1, m2, m3, m4, _, m6, _⟩ := rlSubmitBurst_spec tasks s
    have hlen : (rlSubmitBurst s tasks).1.queue.length ≤ fuel := by
      have h1 : (((tasks.zip (rlSubmitBurst s tasks).2).filterMap
          (fun p => if p.2 then some p.1 else none)).length ≤
            (tasks.zip (rlSubmitBurst s tasks).2).length) :=
        List.length_filterMap_le _ _
      have h2 : (tasks.zip (rlSubmitBurst s tasks).2).length ≤ tasks.length := by
        rw [List.length_zip]
        exact Nat.min_le_left _ _
      rw [m6, hq]
      simpa using le_trans h1 (le_trans h2 hfuel)
    have := rlProcessLoop_fifo fuel (rlSubmitBurst s tasks).1 now []
      (by rw [m1]; exact hmax) (by rw [m3]; exact hrate)
      (by rw [m2]; exact htok0) (by rw [m2, m1]; exact htokM)
      (by rw [m4]; exact hlr) hlen
    rw [this, m6, hq]
    simp

/-- Claim C6, witness for `C6_rate_limiter_fifo_and_bound` at the concrete
limiter of the claim (`maxRequestsPerSecond = 1, maxQueueSize = 2`): a full
queue rejects without enqueuing, the bound is kept, and the runner completes
the accepted tasks of the burst `[0,1,2,3,4]` in submission order. -/
theorem C6_rate_limiter_fifo_and_bound_witness :
    (rlExecute { mkRateLimiter 1 2 0 with queue := [7, 8] } 9 =
      ({ mkRateLimiter 1 2 0 with queue := [7, 8] }, false)) ∧
    ((rlExecute (mkRateLimiter 1 2 0) 7).1.queue.length ≤ 2) ∧
    ((rlProcessLoop 5 (rlSubmitBurst (mkRateLimiter 1 2 0) [0, 1, 2, 3, 4]).1
        0 []).1 =
      (([0, 1, 2, 3, 4].zip
          (rlSubmitBurst (mkRateLimiter 1 2 0) [0, 1, 2, 3, 4]).2).filterMap
        (fun p => if p.2 then some p.1 else none))) :=
  ⟨(C6_rate_limiter_fifo_and_bound).1 _ 9 (by decide),
   (C6_rate_limiter_fifo_and_bound).2.1 (mkRateLimiter 1 2 0) 7 (by decide),
   (C6_rate_limiter_fifo_and_bound).2.2.1 [0, 1, 2, 3, 4]
     (mkRateLimiter 1 2 0) 0 5 (by decide) (by decide) (by decide) (by decide)
     (by decide) rfl (by decide)⟩

/-! ### Idempotence of the name normalizer -/

/-- Lowercasing one code unit is idempotent: the image of `A`–`Z` lands in
`a`–`z`, outside the uppercase range. -/
theorem jsToLower_idem (c : Nat) : jsToLower (jsToLower c) = jsToLower c := by
  simp only [jsToLower]
  split_ifs <;> omega

/-- A map that fixes every element of a list fixes the list. -/
theorem map_eq_self_of_fixed {α : Type} (f : α → α) (l : List α)
    (h : ∀ c ∈ l, f c = c) : l.map f = l := by
  induction l with
  | nil => rfl
  | cons c cs ih =>
    simp only [List.map_cons, h c (List.mem_cons_self c cs),
               ih (fun x hx => h x (List.mem_cons_of_mem c hx))]

/-- Every character of a trimmed string comes from the original string. -/
theorem mem_trimStr (l : JStr) (c : Nat) (h : c ∈ trimStr l) : c ∈ l := by
  simp only [trimStr, List.mem_reverse] at h
  have h1 := (List.dropWhile_sublist (l := (l.dropWhile jsIsWs).reverse)
    (p := jsIsWs)).subset h
  rw [List.mem_reverse] at h1
  exact (List.dropWhile_sublist (l := l) (p := jsIsWs)).subset h1

/-- Every character of a whitespace-collapsed string is a space or comes
from the original string. -/
theorem mem_collapseWs : ∀ (l : JStr) (c : Nat), c ∈ collapseWs l →
    c = 32 ∨ c ∈ l := by
  intro l
  induction l with
  | nil => intro c h; simp [collapseWs] at h
  | cons c₁ tail ih =>
    intro c h
    match tail with
    | [] =>
      simp only [collapseWs] at h
      split at h <;> simp_all
    | c₂ :: rest =>
      simp only [collapseWs] at h
      split_ifs at h with h₁ h₂
      · rcases ih c h with h' | h' <;> simp_all
      · rcases List.mem_cons.mp h with h' | h'
        · left; exact h'
        · rcases ih c h' with h'' | h'' <;> simp_all
      · rcases List.mem_cons.mp h with h' | h'
        · right; simp [h']
        · rcases ih c h' with h'' | h'' <;> simp_all

/-- Collapsing a string that starts with a non-whitespace character keeps
that character in front and collapses the rest. -/
theorem collapseWs_cons_of_not_ws (c : Nat) (l : JStr)
    (h : jsIsWs c = false) : collapseWs (c :: l) = c :: collapseWs l := by
  match l with
  | [] => simp [collapseWs, h]
  | c₂ :: rest => simp [collapseWs, h]

/-- Collapsing a non-empty string yields a non-empty string. -/
theorem collapseWs_ne_nil : ∀ (c : Nat) (l : JStr), collapseWs (c :: l) ≠ [] := by
  intro c l
  induction l generalizing c with
  | nil => simp only [collapseWs]; split <;> simp
  | cons c₂ rest ih =>
    simp only [collapseWs]
    split_ifs <;> simp [ih]

/-- Whitespace collapsing is idempotent: every run in the output is a single
space, which a second pass leaves alone. -/
theorem collapseWs_idem : ∀ l : JStr, collapseWs (collapseWs l) = collapseWs l := by
  intro l
  induction l with
  | nil => rfl
  | cons c₁ tail ih =>
    match tail with
    | [] =>
      cases hc : jsIsWs c₁ <;> simp [collapseWs, hc]
    | c₂ :: rest =>
      cases hc₁ : jsIsWs c₁ with
      | false =>
        rw [collapseWs_cons_of_not_ws c₁ (c₂ :: rest) hc₁,
            collapseWs_cons_of_not_ws c₁ (collapseWs (c₂ :: rest)) hc₁, ih]
      | true =>
        cases hc₂ : jsIsWs c₂ with
        | true =>
          have hstep : collapseWs (c₁ :: c₂ :: rest) = collapseWs (c₂ :: rest) := by
            simp [collapseWs, hc₁, hc₂]
          rw [hstep, ih]
        | false =>
          have hstep : collapseWs (c₁ :: c₂ :: rest) =
              32 :: collapseWs (c₂ :: rest) := by
            simp [collapseWs, hc₁, hc₂]
          have hrest : collapseWs (c₂ :: rest) = c₂ :: collapseWs rest :=
            collapseWs_cons_of_not_ws c₂ rest hc₂
          rw [hstep, hrest]
          show collapseWs (32 :: c₂ :: collapseWs rest) = 32 :: c₂ :: collapseWs rest
          have h32 : jsIsWs 32 = true := by decide
          simp only [collapseWs, h32, hc₂, if_true, if_false,
                     Bool.false_eq_true]
          rw [← hrest, ih, hrest]

/-- The head surviving a `dropWhile` fails the predicate. -/
theorem head_dropWhile_not {α : Type} (p : α → Bool) :
    ∀ (l : List α) (c : α), (l.dropWhile p).head? = some c → p c = false := by
  intro l
  induction l with
  | nil => intro c h; simp [List.dropWhile] at h
  | cons a as ih =>
    intro c h
    by_cases hp : p a = true
    · rw [List.dropWhile_cons_of_pos hp] at h
      exact ih c h
    · rw [List.dropWhile_cons_of_neg hp] at h
      simp only [List.head?_cons, Option.some.injEq] at h
      subst h
      simpa using hp

/-- A `dropWhile` removes only a prefix, so a non-empty result keeps the last
element. -/
theorem getLast_dropWhile {α : Type} (p : α → Bool) :
    ∀ l : List α, l.dropWhile p ≠ [] →
      (l.dropWhile p).getLast? = l.getLast? := by
  intro l
  induction l with
  | nil => intro h; simp [List.dropWhile] at h
  | cons a as ih =>
    intro h
    by_cases hp : p a = true
    · rw [List.dropWhile_cons_of_pos hp] at h ⊢
      rw [ih h]
      have has : as ≠ [] := by
        intro hnil
        rw [hnil] at h
        simp [List.dropWhile] at h
      match as, has with
      | b :: bs, _ => simp [List.getLast?_cons_cons]
    · rw [List.dropWhile_cons_of_neg hp]

/-- A list whose head fails the predicate is fixed by `dropWhile`. -/
theorem dropWhile_eq_self_of_head {α : Type} (p : α → Bool) (l : List α)
    (h : ∀ c, l.head? = some c → p c = false) : l.dropWhile p = l := by
  match l with
  | [] => rfl
  | a :: as =>
    exact List.dropWhile_cons_of_neg (by simp [h a rfl])

/-- A string with no leading and no trailing whitespace is fixed by
`trimStr`. -/
theorem trimStr_eq_self (l : JStr)
    (hhead : ∀ c, l.head? = some c → jsIsWs c = false)
    (hlast : ∀ c, l.getLast? = some c → jsIsWs c = false) :
    trimStr l = l := by
  unfold trimStr
  rw [dropWhile_eq_self_of_head jsIsWs l hhead]
  rw [dropWhile_eq_self_of_head jsIsWs l.reverse
    (fun c hc => hlast c (by rwa [List.head?_reverse] at hc))]
  exact List.reverse_reverse l

/-- The head of a trimmed string is not whitespace. -/
theorem trimStr_head_not_ws (l : JStr) (c : Nat)
    (h : (trimStr l).head? = some c) : jsIsWs c = false := by
  unfold trimStr at h
  rw [List.head?_reverse] at h
  have hne : (l.dropWhile jsIsWs).reverse.dropWhile jsIsWs ≠ [] := by
    intro hnil
    rw [hnil] at h
    simp at h
  rw [getLast_dropWhile jsIsWs _ hne, List.getLast?_reverse] at h
  exact head_dropWhile_not jsIsWs l c h

/-- The last character of a trimmed string is not whitespace. -/
theorem trimStr_getLast_not_ws (l : JStr) (c : Nat)
    (h : (trimStr l).getLast? = some c) : jsIsWs c = false := by
  unfold trimStr at h
  rw [List.getLast?_reverse] at h
  exact head_dropWhile_not jsIsWs _ c h

/-- Apostrophe unification never changes whitespace classification (the
curly quotes and the ASCII apostrophe are all non-whitespace). -/
theorem jsIsWs_replQuote (c : Nat) :
    jsIsWs (if c = 0x2018 ∨ c = 0x2019 then 39 else c) = jsIsWs c := by
  by_cases h : c = 0x2018 ∨ c = 0x2019
  · rcases h with h | h <;> subst h <;> decide
  · rw [if_neg h]

/-- Characters of the apostrophe-unified string are the ASCII apostrophe or
characters of the original. -/
theorem mem_replQuotes (l : JStr) (c : Nat) (h : c ∈ replQuotes l) :
    c = 39 ∨ c ∈ l := by
  simp only [replQuotes, List.mem_map] at h
  obtain ⟨d, hd, hdc⟩ := h
  by_cases hq : d = 0x2018 ∨ d = 0x2019
  · rw [if_pos hq] at hdc; left; omega
  · rw [if_neg hq] at hdc; right; rwa [← hdc]

/-- No character of the apostrophe-unified string is a curly quote. -/
theorem replQuotes_no_quote (l : JStr) (c : Nat) (h : c ∈ replQuotes l) :
    ¬(c = 0x2018 ∨ c = 0x2019) := by
  simp only [replQuotes, List.mem_map] at h
  obtain ⟨d, _, hdc⟩ := h
  by_cases hq : d = 0x2018 ∨ d = 0x2019
  · rw [if_pos hq] at hdc; omega
  · rw [if_neg hq] at hdc; subst hdc; exact hq

/-- A string without curly quotes is fixed by apostrophe unification. -/
theorem replQuotes_eq_self (l : JStr)
    (h : ∀ c ∈ l, ¬(c = 0x2018 ∨ c = 0x2019)) : replQuotes l = l :=
  map_eq_self_of_fixed _ l (fun c hc => if_neg (h c hc))

/-- Collapsing preserves a non-whitespace head. -/
theorem collapseWs_head_not_ws (l : JStr)
    (h : ∀ c, l.head? = some c → jsIsWs c = false) :
    ∀ c, (collapseWs l).head? = some c → jsIsWs c = false := by
  match l with
  | [] => intro c hc; simp [collapseWs] at hc
  | a :: as =>
    intro c hc
    have ha : jsIsWs a = false := h a rfl
    rw [collapseWs_cons_of_not_ws a as ha] at hc
    simp only [List.head?_cons, Option.some.injEq] at hc
    subst hc
    exact ha

/-- Collapsing preserves a non-whitespace last character. -/
theorem collapseWs_getLast_not_ws :
    ∀ l : JStr, (∀ c, l.getLast? = some c → jsIsWs c = false) →
      ∀ c, (collapseWs l).getLast? = some c → jsIsWs c = false := by
  intro l
  induction l with
  | nil => intro _ c hc; simp [collapseWs] at hc
  | cons c₁ tail ih =>
    intro h c hc
    match tail with
    | [] =>
      have h₁ : jsIsWs c₁ = false := h c₁ rfl
      simp only [collapseWs, h₁, Bool.false_eq_true, if_false] at hc
      simp only [List.getLast?_singleton, Option.some.injEq] at hc
      subst hc
      exact h₁
    | c₂ :: rest =>
      have htail : ∀ d, (c₂ :: rest).getLast? = some d → jsIsWs d = false :=
        fun d hd => h d (by rwa [List.getLast?_cons_cons])
      cases hc₁ : jsIsWs c₁ with
      | true =>
        cases hc₂ : jsIsWs c₂ with
        | true =>
          have hstep : collapseWs (c₁ :: c₂ :: rest) = collapseWs (c₂ :: rest) := by
            simp [collapseWs, hc₁, hc₂]
          rw [hstep] at hc
          exact ih htail c hc
        | false =>
          have hstep : collapseWs (c₁ :: c₂ :: rest) =
              32 :: collapseWs (c₂ :: rest) := by
            simp [collapseWs, hc₁, hc₂]
          rw [hstep] at hc
          have hne := collapseWs_ne_nil c₂ rest
          match hcol : collapseWs (c₂ :: rest), hne with
          | d :: ds, _ =>
            rw [hcol, List.getLast?_cons_cons] at hc
            exact ih htail c (by rwa [hcol])
      | false =>
        rw [collapseWs_cons_of_not_ws c₁ (c₂ :: rest) hc₁] at hc
        have hne := collapseWs_ne_nil c₂ rest
        match hcol : collapseWs (c₂ :: rest), hne with
        | d :: ds, _ =>
          rw [hcol, List.getLast?_cons_cons] at hc
          exact ih htail c (by rwa [hcol])

/-- Claim C8: the name normalizer is idempotent —
`normalize(normalize(x)) == normalize(x)` for every input string.  The
normalized string is already lowercase, carries no curly apostrophes, has no
leading or trailing whitespace, and every internal whitespace run is a
single space, so each of the four stages fixes it. -/
theorem C8_normalizeName_idempotent (s : JStr) :
    normalizeName (normalizeName s) = normalizeName s := by
  have hlow32 : jsToLower 32 = 32 := by decide
  have hlow39 : jsToLower 39 = 39 := by decide
  -- characters of the normalized string are fixed by lowercasing
  have hlowfix : ∀ c ∈ normalizeName s, jsToLower c = c := by
    intro c hc
    rcases mem_collapseWs _ c hc with h32 | hrq
    · rw [h32]; exact hlow32
    rcases mem_replQuotes _ c hrq with h39 | htr
    · rw [h39]; exact hlow39
    have hlo := mem_trimStr _ c htr
    simp only [lowerStr, List.mem_map] at hlo
    obtain ⟨d, _, hd⟩ := hlo
    rw [← hd]
    exact jsToLower_idem d
  have hlow : lowerStr (normalizeName s) = normalizeName s :=
    map_eq_self_of_fixed _ _ hlowfix
  -- the normalized string carries no curly quotes
  have hnq : ∀ c ∈ normalizeName s, ¬(c = 0x2018 ∨ c = 0x2019) := by
    intro c hc
    rcases mem_collapseWs _ c hc with h32 | hrq
    · omega
    · exact replQuotes_no_quote _ c hrq
  have hq : replQuotes (normalizeName s) = normalizeName s :=
    replQuotes_eq_self _ hnq
  -- the normalized string has non-whitespace head and last characters
  have hheadu : ∀ c, (replQuotes (trimStr (lowerStr s))).head? = some c →
      jsIsWs c = false := by
    intro c hc
    rw [replQuotes, List.head?_map] at hc
    match hh : (trimStr (lowerStr s)).head? with
    | none => rw [hh] at hc; simp at hc
    | some d =>
      rw [hh] at hc
      simp only [Option.map_some', Option.some.injEq] at hc
      subst hc
      rw [jsIsWs_replQuote]
      exact trimStr_head_not_ws _ d hh
  have hlastu : ∀ c, (replQuotes (trimStr (lowerStr s))).getLast? = some c →
      jsIsWs c = false := by
    intro c hc
    rw [replQuotes, List.getLast?_map] at hc
    match hh : (trimStr (lowerStr s)).getLast? with
    | none => rw [hh] at hc; simp at hc
    | some d =>
      rw [hh] at hc
      simp only [Option.map_some', Option.some.injEq] at hc
      subst hc
      rw [jsIsWs_replQuote]
      exact trimStr_getLast_not_ws _ d hh
  have htrim : trimStr (normalizeName s) = normalizeName s :=
    trimStr_eq_self _
      (collapseWs_head_not_ws _ hheadu)
      (collapseWs_getLast_not_ws _ hlastu)
  -- the normalized string is fixed by a second collapse
  have hcol : collapseWs (normalizeName s) = normalizeName s :=
    collapseWs_idem _
  calc normalizeName (normalizeName s)
      = collapseWs (replQuotes (trimStr (lowerStr (normalizeName s)))) := rfl
    _ = collapseWs (replQuotes (trimStr (normalizeName s))) := by rw [hlow]
    _ = collapseWs (replQuotes (normalizeName s)) := by rw [htrim]
    _ = collapseWs (normalizeName s) := by rw [hq]
    _ = normalizeName s := hcol

end PolyCrawler
